import Mathlib

/-!
Verification development for the Deep-Research repository.

The Python sources under `src/core/` are shallowly embedded below:

* Python `str` is modelled as Lean `String`; every string operation used by
  the code (`strip`, slicing, `startswith`, `endswith`, `in`, `split('\n')`,
  `'\n'.join`, `sorted`, `len`, indexing-free truncation) is re-implemented
  structurally over `String.data` so that the kernel can evaluate it on
  concrete inputs.  Python string truthiness is non-emptiness.
* Network and model calls are oracles supplied as explicit parameters
  (functions from call indices to outcomes).  A Python exception raised by
  an oracle is an `Except.error`; a Python function that may propagate an
  exception is embedded with result type `Except Unit _`.
* Mutable state (the extractor cache, the accumulated rounds and sources of
  the orchestrator loop) is threaded explicitly.
-/

/-! ## Python string primitives -/

/-- Whitespace characters stripped by Python `str.strip()` (the ASCII ones
that occur in this code base). -/
def wsChar (c : Char) : Bool := c == ' ' || c == '\t' || c == '\n' || c == '\r'

/-- `str.strip()` on a character list. -/
def pyStripChars (l : List Char) : List Char :=
  ((l.dropWhile wsChar).reverse.dropWhile wsChar).reverse

/-- Python `s.strip()`. -/
def pyStrip (s : String) : String := ⟨pyStripChars s.data⟩

/-- Python `s.startswith(pre)`. -/
def pyStartsWith (s pre : String) : Bool := pre.data.isPrefixOf s.data

/-- Python `s.endswith(suf)`. -/
def pyEndsWith (s suf : String) : Bool := suf.data.isSuffixOf s.data

/-- Python `s[n:]` (drop the first `n` characters). -/
def pyDropLeft (s : String) (n : Nat) : String := ⟨s.data.drop n⟩

/-- Python `s[:-n]` (drop the last `n` characters). -/
def pyDropRight (s : String) (n : Nat) : String :=
  ⟨s.data.take (s.data.length - n)⟩

/-- Python `s[:n]`. -/
def pyTake (s : String) (n : Nat) : String := ⟨s.data.take n⟩

/-- Python `len(s)` (number of code points). -/
def pyLen (s : String) : Nat := s.data.length

/-- Substring test on character lists. -/
def infixChars (sub s : List Char) : Bool := s.tails.any (fun t => sub.isPrefixOf t)

/-- Python `sub in s` (substring containment). -/
def pyIn (sub s : String) : Bool := infixChars sub.data s.data

/-- Python `<` on strings: lexicographic comparison of code points, with a
proper prefix smaller than the longer string. -/
def lexLtChars : List Char → List Char → Bool
  | [], [] => false
  | [], _ :: _ => true
  | _ :: _, [] => false
  | c :: cs, d :: ds =>
      if c.toNat < d.toNat then true
      else if d.toNat < c.toNat then false
      else lexLtChars cs ds

/-- Python `a < b` on strings. -/
def strLt (a b : String) : Bool := lexLtChars a.data b.data

/-- Insertion step of the model of Python `sorted`. -/
def sortInsert (x : String) : List String → List String
  | [] => [x]
  | y :: ys => if strLt y x then y :: sortInsert x ys else x :: y :: ys

/-- Python `sorted(l)` for string lists (insertion sort; stable, ascending). -/
def pySorted : List String → List String
  | [] => []
  | x :: xs => sortInsert x (pySorted xs)

/-- Python `sorted(set(l))` (for hashable strings): the distinct members of
`l`, in ascending order. -/
def sortedDedup (l : List String) : List String := pySorted l.eraseDups

/-- Python `text.split('\n')` on a character list. -/
def splitLinesChars : List Char → List Char → List (List Char)
  | [], acc => [acc.reverse]
  | c :: cs, acc =>
      if c == '\n' then acc.reverse :: splitLinesChars cs []
      else splitLinesChars cs (c :: acc)

/-- Python `text.split('\n')`. -/
def splitLines (s : String) : List String :=
  (splitLinesChars s.data []).map (fun l => ⟨l⟩)

/-- Python `'\n'.join(lines)`. -/
def joinLines : List String → String
  | [] => ""
  | [x] => x
  | x :: y :: ys => x ++ "\n" ++ joinLines (y :: ys)

/-! ## Data model (src/core/research_orchestrator.py, src/core/search_engine.py)

`ResearchRound.analysis` is stored by the source as the dict produced by
`analyze_search_results`; the orchestrator reads only its `'gaps'` entry and
`synthesize_research` only its `'summary'` entry, so at the orchestrator
level the analysis dict is modelled at its documented schema.  The separate
JSON-level model of `analyze_search_results` (claim C1) is below. -/

structure SearchRecord where
  title : String
  url : String
  snippet : String
deriving DecidableEq, Repr

structure Analysis where
  key_findings : List String
  summary : String
  topics : List String
  gaps : List String
deriving DecidableEq, Repr

structure ResearchRound where
  round_number : Nat
  queries : List String
  search_results : List SearchRecord
  extracted_contents : List (String × String)
  analysis : Analysis
deriving DecidableEq, Repr

/-- `ResearchResult`; `timestamp` (`datetime.now()`) is environment data and
is modelled as an opaque `Nat` supplied by the environment. -/
structure ResearchResult where
  topic : String
  final_report : String
  rounds : List ResearchRound
  all_sources : List String
  timestamp : Nat
  total_rounds : Nat
deriving DecidableEq, Repr

/-! ## AI analyzer (src/core/ai_analyzer.py)

The prompt construction only feeds the model oracle and is elided; the
oracle (`apiResult` below) stands for the whole `_call_api` call, with
`Except.error` modelling a raised exception.  `json.loads` is abstracted as
a `parse` parameter returning `none` exactly when `json.JSONDecodeError`
would be raised. -/

/-- Model of Python JSON values (the result of `json.loads`). -/
inductive Json where
  | null
  | bool (b : Bool)
  | num (n : Int)
  | str (s : String)
  | arr (elems : List Json)
  | obj (fields : List (String × Json))

/-- Dict field access on a JSON object (`d.get(k)`); `none` for absent keys
or non-object values. -/
def jGet (j : Json) (k : String) : Option Json :=
  match j with
  | .obj fields => (fields.find? (fun p => p.1 == k)).map (fun p => p.2)
  | _ => none

/-- The property claimed by the spec: the analysis value carries all four
fields `key_findings`, `summary`, `topics`, `gaps`. -/
def analysisHasAllFields (j : Json) : Bool :=
  (jGet j "key_findings").isSome && (jGet j "summary").isSome &&
    (jGet j "topics").isSome && (jGet j "gaps").isSome

/-- The code-fence stripping of `analyze_search_results`
(src/core/ai_analyzer.py lines 150-155), applied to the already-stripped
response. -/
def fenceStrip (s : String) : String :=
  let s1 := if pyStartsWith s "```json" then pyDropLeft s 7 else s
  let s2 := if pyStartsWith s1 "```" then pyDropLeft s1 3 else s1
  if pyEndsWith s2 "```" then pyDropRight s2 3 else s2

/-- The fallback dict built in the `json.JSONDecodeError` handler
(src/core/ai_analyzer.py lines 163-168); `t` is the value of the `response`
variable at the point of the failed `json.loads` (stripped and
fence-stripped, but without the final `.strip()` that only feeds
`json.loads`). -/
def degradedJson (t : String) : Json :=
  .obj [("key_findings", .arr [.str t]), ("summary", .str t),
        ("topics", .arr []), ("gaps", .arr [])]

/-- `AIAnalyzer.analyze_search_results` (src/core/ai_analyzer.py lines
97-168) from the point the model response is available.  Only
`json.JSONDecodeError` is caught, so a raised `_call_api` exception
(`apiResult = .error`) propagates. -/
def analyze_search_results (parse : String → Option Json)
    (apiResult : Except Unit String) : Except Unit Json :=
  match apiResult with
  | .error e => .error e
  | .ok raw =>
      let response := fenceStrip (pyStrip raw)
      match parse (pyStrip response) with
      | some analysis => .ok analysis
      | none => .ok (degradedJson response)

/-- The per-round url collection of `synthesize_research`
(src/core/ai_analyzer.py lines 268-271) and of the orchestrator loop
(src/core/research_orchestrator.py lines 132-135): urls of the round's
search results with `result.get('url')` truthy, i.e. non-empty. -/
def roundUrls (rd : ResearchRound) : List String :=
  (rd.search_results.filter (fun r => r.url ≠ "")).map (fun r => r.url)

/-- Urls collected across all rounds, in traversal order, with duplicates. -/
def collectUrls (rounds : List ResearchRound) : List String :=
  (rounds.map roundUrls).flatten

/-- The appended reference list of `synthesize_research`
(src/core/ai_analyzer.py lines 305-306): `f"{i}. {url}\n"` for each url. -/
def refLines (i : Nat) : List String → String
  | [] => ""
  | u :: rest => Nat.repr i ++ ". " ++ u ++ "\n" ++ refLines (i + 1) rest

/-- The fallback report body of `synthesize_research`: `f"### 第 {i} 轮\n"`
plus the round's raw summary, per round (src/core/ai_analyzer.py lines
314-318). -/
def simpleRoundSummaries : Nat → List ResearchRound → String
  | _, [] => ""
  | i, rd :: rest =>
      "### 第 " ++ Nat.repr i ++ " 轮\n" ++ rd.analysis.summary ++ "\n\n" ++
        simpleRoundSummaries (i + 1) rest

/-- `AIAnalyzer.synthesize_research` (src/core/ai_analyzer.py lines
235-319).  The prompt construction (lines 254-297) only feeds the model
oracle and is elided; the url collection feeding the appended reference
section is kept.  `apiResult` is the `_call_api` outcome; `.error` takes
the generic exception handler of lines 311-319. -/
def synthesize_research (topic : String) (all_rounds : List ResearchRound)
    (apiResult : Except Unit String) : String :=
  let all_sources := collectUrls all_rounds
  match apiResult with
  | .ok report =>
      if !(pyIn "## 参考来源" report) && !(pyIn "## References" report) then
        report ++ "\n\n## 参考来源 (References)\n\n" ++
          refLines 1 (sortedDedup all_sources)
      else report
  | .error _ =>
      "# " ++ topic ++ "\n\n## 研究摘要\n\n" ++ simpleRoundSummaries 1 all_rounds

/-! ## Search engine (src/core/search_engine.py)

`DDGS().text(query, max_results)` returns an iterator that the source
consumes inside its `try` block.  One provider attempt is modelled by the
records the iterator yields followed by either normal completion
(`ok = true`) or an exception raised mid-iteration (`ok = false`).  Note
the source initialises `results` once, outside the retry loop, so records
yielded by a failed attempt stay in `results`. -/

/-- A raw provider record; `result.get(k, '')` makes an absent key
indistinguishable from `''`, so the three fields are plain strings. -/
structure RawResult where
  title : String
  href : String
  body : String
deriving DecidableEq, Repr

/-- One `ddgs.text` attempt: the records yielded before the iteration
either completes (`ok = true`) or raises (`ok = false`). -/
structure SearchAttempt where
  yielded : List RawResult
  ok : Bool
deriving Repr

/-- Conversion to the standard format (src/core/search_engine.py lines
50-55). -/
def toRecord (r : RawResult) : SearchRecord :=
  { title := r.title, url := r.href, snippet := r.body }

/-- Observable outcome of `SearchEngine.search`: the returned list, the
number of provider attempts made, and the sequence of back-off sleeps (in
seconds) performed between attempts. -/
structure SearchOutcome where
  results : List SearchRecord
  attempts : Nat
  delays : List Nat
deriving DecidableEq, Repr

/-- The retry loop of `SearchEngine.search` (src/core/search_engine.py
lines 41-75).  `attempt i` is the behaviour of the `i`-th provider call
(0-based); `retryCount` mirrors `retry_count` and `fuel` equals
`maxRetries - retryCount`, making the `while` guard structural. -/
def searchGo (attempt : Nat → SearchAttempt) (maxRetries retryDelay : Nat) :
    Nat → Nat → List SearchRecord → List Nat → SearchOutcome
  | 0, retryCount, acc, delays => ⟨acc, retryCount, delays⟩
  | fuel + 1, retryCount, acc, delays =>
      let a := attempt retryCount
      let acc2 := acc ++ a.yielded.map toRecord
      if a.ok then ⟨acc2, retryCount + 1, delays⟩
      else if retryCount + 1 < maxRetries then
        searchGo attempt maxRetries retryDelay fuel (retryCount + 1) acc2
          (delays ++ [retryDelay * 2 ^ retryCount])
      else ⟨[], retryCount + 1, delays⟩

/-- `SearchEngine.search` (src/core/search_engine.py lines 22-75) with the
provider behaviour as an oracle.  It is a total function: every exception
of an attempt is caught by the `except Exception` handler. -/
def search (attempt : Nat → SearchAttempt) (maxRetries retryDelay : Nat) :
    SearchOutcome :=
  searchGo attempt maxRetries retryDelay maxRetries 0 [] []

/-! ## Content extractor (src/core/content_extractor.py)

One network/parse attempt for a url is modelled by its outcome: a
`requests` exception (retried), any other exception in the `try` body
(gives up immediately), a fetched page without usable main content
(returns `None` without retrying), or the text `main_content.get_text`
produces.  The cache `self.cache` is an explicit association list with
Python-dict insertion semantics. -/

inductive FetchOutcome where
  | reqError
  | parseError
  | noContent
  | page (text : String)
deriving DecidableEq, Repr

/-- Python dict assignment `m[k] = v`: replace the value of an existing
key in place, else append the new binding. -/
def dictInsert : List (String × String) → String → String → List (String × String)
  | [], k, v => [(k, v)]
  | p :: rest, k, v =>
      if p.1 = k then (k, v) :: rest else p :: dictInsert rest k v

/-- Python dict lookup (unique keys: first match). -/
def dictGet (m : List (String × String)) (k : String) : Option String :=
  (m.find? (fun p => p.1 == k)).map (fun p => p.2)

/-- The pure text post-processing of a fetched page
(src/core/content_extractor.py lines 85-93): strip each line, drop blank
lines, re-join, truncate to `maxLen` characters with an ellipsis marker. -/
def cleanContent (maxLen : Nat) (text : String) : String :=
  let lines := ((splitLines text).map pyStrip).filter (fun l => l ≠ "")
  let content := joinLines lines
  if pyLen content > maxLen then pyTake content maxLen ++ "..." else content

/-- The retry loop of `ContentExtractor.extract_content`
(src/core/content_extractor.py lines 45-118).  Returns the result, the
cache after the call, and the number of network requests issued.  `fuel`
equals `maxRetries - retryCount` as in `searchGo`. -/
def extractGo (attempt : Nat → FetchOutcome) (maxRetries maxLen : Nat)
    (url : String) (cache : List (String × String)) :
    Nat → Nat → Option String × List (String × String) × Nat
  | 0, retryCount => (none, cache, retryCount)
  | fuel + 1, retryCount =>
      match attempt retryCount with
      | .page t =>
          let content := cleanContent maxLen t
          (some content, dictInsert cache url content, retryCount + 1)
      | .noContent => (none, cache, retryCount + 1)
      | .parseError => (none, cache, retryCount + 1)
      | .reqError =>
          if retryCount + 1 < maxRetries then
            extractGo attempt maxRetries maxLen url cache fuel (retryCount + 1)
          else (none, cache, retryCount + 1)

/-- `ContentExtractor.extract_content` (src/core/content_extractor.py lines
28-118): cache-first, then the retry loop.  A cache hit issues no network
request and leaves the cache unchanged. -/
def extract_content (attempt : Nat → FetchOutcome) (maxRetries maxLen : Nat)
    (cache : List (String × String)) (url : String) :
    Option String × List (String × String) × Nat :=
  match dictGet cache url with
  | some c => (some c, cache, 0)
  | none => extractGo attempt maxRetries maxLen url cache maxRetries 0

/-- The collection loop of `ContentExtractor.extract_multiple`
(src/core/content_extractor.py lines 134-153), as one linearisation of the
thread pool: urls are processed in list order against the shared cache;
`attempts k` is the network behaviour for the `k`-th url.  A result is
recorded only when `if content:` holds, i.e. the text is non-empty; the
defensive `except Exception` around `future.result()` is vacuous here
because `extract_content` is total. -/
def extractMultipleGo (attempts : Nat → Nat → FetchOutcome)
    (maxRetries maxLen : Nat) :
    List String → List (String × String) → List (String × String) →
      List (String × String) × List (String × String)
  | [], res, cache => (res, cache)
  | url :: rest, res, cache =>
      let r := extract_content (attempts 0) maxRetries maxLen cache url
      let res2 := match r.1 with
        | some content => if content = "" then res else dictInsert res url content
        | none => res
      extractMultipleGo (fun i => attempts (i + 1)) maxRetries maxLen rest res2 r.2.1

/-- `ContentExtractor.extract_multiple` (src/core/content_extractor.py
lines 120-153): the result mapping and the cache afterwards. -/
def extract_multiple (attempts : Nat → Nat → FetchOutcome)
    (maxRetries maxLen : Nat) (cache : List (String × String))
    (urls : List String) : List (String × String) × List (String × String) :=
  extractMultipleGo attempts maxRetries maxLen urls [] cache

/-- The cache state after `extract_multiple` has processed a prefix of the
url list (used to state per-url properties of the fold). -/
def cacheAfter (attempts : Nat → Nat → FetchOutcome) (maxRetries maxLen : Nat)
    (cache : List (String × String)) : List String → List (String × String)
  | [] => cache
  | url :: rest =>
      cacheAfter (fun i => attempts (i + 1)) maxRetries maxLen
        (extract_content (attempts 0) maxRetries maxLen cache url).2.1 rest

/-! ## Research orchestrator (src/core/research_orchestrator.py)

`conduct_research` composes the collaborators.  Their behaviours are an
explicit environment:

* `cb` — the optional progress callback; `some f` with `f e = true` means
  the callback raises at checkpoint event `e` (a `(message, current_round,
  total_rounds)` triple).  The source does not guard these invocations, so
  a raising callback is an `Except.error` of the whole call.
* `searchRes r q` — what `SearchEngine.search` returns for the `q`-th query
  of round index `r` (`search` never raises, claim C7).
* `extractRes r urls` — what `extract_multiple` returns for round index `r`
  (`extract_multiple` never raises, claim C9).
* `analysisRes r` — the analysis dict of round index `r` at its schema, or
  `.error` when `analyze_search_results` propagates a `_call_api` failure.
* `genQueries r` — the behaviour of `generate_follow_up_queries` for round
  index `r ≥ 1`; `.error` models a raised exception, which
  `_generate_queries` catches.
* `synthesisRes` — the `_call_api` outcome inside `synthesize_research`.
-/

structure OrchestratorEnv where
  cb : Option (String × Nat × Nat → Bool)
  searchRes : Nat → Nat → List SearchRecord
  extractRes : Nat → List String → List (String × String)
  analysisRes : Nat → Except Unit Analysis
  genQueries : Nat → Except Unit (List String)
  synthesisRes : Except Unit String
  timestamp : Nat

/-- One unguarded `progress_callback(...)` invocation
(e.g. src/core/research_orchestrator.py lines 97-102): skipped when no
callback is injected, aborts the computation when the callback raises. -/
def checkpoint (cb : Option (String × Nat × Nat → Bool))
    (e : String × Nat × Nat) : Except Unit Unit :=
  match cb with
  | none => .ok ()
  | some f => if f e then .error () else .ok ()

/-- `ResearchOrchestrator._generate_queries`
(src/core/research_orchestrator.py lines 221-236): the analyzer call with
every exception caught and turned into `[]`. -/
def orchGenerateQueries (gen : Except Unit (List String)) : List String :=
  match gen with
  | .ok qs => qs
  | .error _ => []

/-- Checkpoint message `f"第 {n}/{m} 轮: 搜索中..."` (line 99). -/
def roundStartMsg (roundNum maxRounds : Nat) : String :=
  "第 " ++ Nat.repr (roundNum + 1) ++ "/" ++ Nat.repr maxRounds ++ " 轮: 搜索中..."

/-- Checkpoint message `f"第 {n}/{m} 轮: 搜索 '{query}'"` (line 124). -/
def searchQueryMsg (roundNum maxRounds : Nat) (query : String) : String :=
  "第 " ++ Nat.repr (roundNum + 1) ++ "/" ++ Nat.repr maxRounds ++
    " 轮: 搜索 \x27" ++ query ++ "\x27"

/-- Checkpoint message `f"第 {n}/{m} 轮: 提取网页内容..."` (line 143). -/
def extractMsg (roundNum maxRounds : Nat) : String :=
  "第 " ++ Nat.repr (roundNum + 1) ++ "/" ++ Nat.repr maxRounds ++
    " 轮: 提取网页内容..."

/-- Checkpoint message `f"第 {n}/{m} 轮: AI 分析中..."` (line 156). -/
def analyzeMsg (roundNum maxRounds : Nat) : String :=
  "第 " ++ Nat.repr (roundNum + 1) ++ "/" ++ Nat.repr maxRounds ++
    " 轮: AI 分析中..."

/-- The per-query search loop of one round
(src/core/research_orchestrator.py lines 120-135): a checkpoint before each
query, concatenation of the results, and accumulation of every truthy url
into the running source collection. -/
def searchPhase (cb : Option (String × Nat × Nat → Bool))
    (roundNum maxRounds : Nat) (sres : Nat → List SearchRecord) :
    Nat → List String → List SearchRecord → List String →
      Except Unit (List SearchRecord × List String)
  | _, [], acc, srcs => .ok (acc, srcs)
  | qi, query :: rest, acc, srcs =>
      match checkpoint cb
          (searchQueryMsg roundNum maxRounds query, roundNum + 1, maxRounds) with
      | .error e => .error e
      | .ok _ =>
          let results := sres qi
          searchPhase cb roundNum maxRounds sres (qi + 1) rest (acc ++ results)
            (srcs ++ (results.filter (fun r => r.url ≠ "")).map (fun r => r.url))

/-- The `for round_num in range(max_rounds)` loop of `conduct_research`
(src/core/research_orchestrator.py lines 94-180).  `fuel` equals
`maxRounds - roundNum`, making the bounded `for` structural; `rounds` and
`srcs` are the accumulated rounds and (not yet deduplicated) source urls.
The source adds a query's urls to `all_sources` as soon as that search
returns; here the round's urls are appended after its search phase, which
is observationally identical because an abort in between discards the
state anyway. -/
def researchLoop (topic : String) (maxRounds : Nat) (env : OrchestratorEnv) :
    Nat → Nat → List ResearchRound → List String →
      Except Unit (List ResearchRound × List String)
  | 0, _, rounds, srcs => .ok (rounds, srcs)
  | fuel + 1, roundNum, rounds, srcs =>
      match checkpoint env.cb
          (roundStartMsg roundNum maxRounds, roundNum + 1, maxRounds) with
      | .error e => .error e
      | .ok _ =>
          let queries :=
            if roundNum = 0 then [topic]
            else orchGenerateQueries (env.genQueries roundNum)
          if queries = [] then .ok (rounds, srcs)
          else
            match searchPhase env.cb roundNum maxRounds (env.searchRes roundNum)
                0 queries [] [] with
            | .error e => .error e
            | .ok (allResults, newSrcs) =>
                match checkpoint env.cb
                    (extractMsg roundNum maxRounds, roundNum + 1, maxRounds) with
                | .error e => .error e
                | .ok _ =>
                    let urlsToExtract := (allResults.take 10).map (fun r => r.url)
                    let extracted := env.extractRes roundNum urlsToExtract
                    match checkpoint env.cb
                        (analyzeMsg roundNum maxRounds, roundNum + 1, maxRounds) with
                    | .error e => .error e
                    | .ok _ =>
                        match env.analysisRes roundNum with
                        | .error e => .error e
                        | .ok analysis =>
                            let rd : ResearchRound :=
                              { round_number := roundNum + 1, queries := queries,
                                search_results := allResults,
                                extracted_contents := extracted,
                                analysis := analysis }
                            let rounds2 := rounds ++ [rd]
                            let srcs2 := srcs ++ newSrcs
                            if roundNum ≥ maxRounds - 1 then .ok (rounds2, srcs2)
                            else if analysis.gaps = [] then .ok (rounds2, srcs2)
                            else researchLoop topic maxRounds env fuel
                              (roundNum + 1) rounds2 srcs2

/-- `ResearchOrchestrator.conduct_research`
(src/core/research_orchestrator.py lines 62-219): the round loop, the
synthesis checkpoint (line 183, outside the loop), the final report, and
the assembled `ResearchResult` with `all_sources = sorted(list(set))` and
`total_rounds = len(rounds)`. -/
def conduct_research (topic : String) (maxRounds : Nat)
    (env : OrchestratorEnv) : Except Unit ResearchResult :=
  match researchLoop topic maxRounds env maxRounds 0 [] [] with
  | .error e => .error e
  | .ok (rounds, srcs) =>
      match checkpoint env.cb ("正在生成最终报告...", maxRounds, maxRounds) with
      | .error e => .error e
      | .ok _ =>
          .ok { topic := topic,
                final_report := synthesize_research topic rounds env.synthesisRes,
                rounds := rounds,
                all_sources := sortedDedup srcs,
                timestamp := env.timestamp,
                total_rounds := rounds.length }

/-! ## Concrete environments used by witnesses and counterexamples -/

/-- A JSON parser oracle agreeing with `json.loads` on the inputs used by
claim C1: the text `\x7b\x7d` (an empty JSON object) parses to the empty
object, which is exactly what `json.loads` returns for it. -/
def parseEmptyObj : String → Option Json :=
  fun s => if s = "\x7b\x7d" then some (Json.obj []) else none

/-- A parser oracle on which every input fails to parse (models a model
response that is not valid JSON). -/
def parseNever : String → Option Json := fun _ => none

/-- A round holding a single search result with url `http://a` (claim C2). -/
def roundA : ResearchRound :=
  { round_number := 1, queries := ["q"],
    search_results := [⟨"t", "http://a", "s"⟩],
    extracted_contents := [], analysis := ⟨[], "sum", [], []⟩ }

/-- A round holding a single search result whose `url` field is the empty
string — a well-formed `SearchRecord` that `result.get('url')` treats as
falsy (claim C5). -/
def roundEmptyUrl : ResearchRound :=
  { round_number := 1, queries := ["q"],
    search_results := [⟨"t", "", "s"⟩],
    extracted_contents := [], analysis := ⟨[], "sum", [], []⟩ }

/-- The claim's reading of the `all_sources` invariant: the deduplicated,
sorted union of the `url` FIELDS across every round's `search_results`
(no truthiness filter).  Stated from the spec sentence, for comparison
with what the code computes. -/
def specAllSources (rounds : List ResearchRound) : List String :=
  sortedDedup ((rounds.map (fun rd => rd.search_results.map (fun r => r.url))).flatten)

/-- A benign environment: one search result per query, analysis succeeds
with no gaps, no callback, synthesis text returned. -/
def envBenign : OrchestratorEnv :=
  { cb := none,
    searchRes := fun _ _ => [⟨"t", "http://e", "s"⟩],
    extractRes := fun _ _ => [],
    analysisRes := fun _ => .ok ⟨["f"], "sum", [], []⟩,
    genQueries := fun _ => .ok ["q2"],
    synthesisRes := .ok "rep",
    timestamp := 0 }

/-- An environment whose progress callback raises at every checkpoint
(claim C3). -/
def envRaisingCb : OrchestratorEnv :=
  { envBenign with cb := some (fun _ => true) }

/-- An environment producing a search result with an empty `url` field
(claim C5). -/
def envEmptyUrl : OrchestratorEnv :=
  { envBenign with searchRes := fun _ _ => [⟨"t", "", "s"⟩] }

/-- An environment whose round-1 analysis reports a gap, and whose
follow-up-query generation raises (claim C10): round 2 is never created. -/
def envGenRaises : OrchestratorEnv :=
  { envBenign with
    analysisRes := fun _ => .ok ⟨["f"], "sum", [], ["gap"]⟩,
    genQueries := fun i => if i = 0 then .ok [] else .error () }

/-- A search provider behaviour whose first attempt yields one record and
then raises mid-iteration, and whose second attempt yields one record and
completes (claim C7). -/
def attemptPartialThenOk : Nat → SearchAttempt :=
  fun i => match i with
  | 0 => ⟨[⟨"t1", "u1", "s1"⟩], false⟩
  | _ => ⟨[⟨"t2", "u2", "s2"⟩], true⟩

/-- The `ResearchResult` that `conduct_research "t" 3 envBenign` computes
(used by witnesses; the equality is established by `rfl`). -/
def benignResult : ResearchResult :=
  { topic := "t",
    final_report := "rep\n\n## 参考来源 (References)\n\n1. http://e\n",
    rounds := [{ round_number := 1, queries := ["t"],
                 search_results := [⟨"t", "http://e", "s"⟩],
                 extracted_contents := [],
                 analysis := ⟨["f"], "sum", [], []⟩ }],
    all_sources := ["http://e"],
    timestamp := 0,
    total_rounds := 1 }

/-- Per-url network behaviours for the C9 witness: the first url's fetch
succeeds with text `textA`, every other url's fetches always fail. -/
def attemptsWitness : Nat → Nat → FetchOutcome :=
  fun k _ => if k = 0 then .page "textA" else .reqError

/-! ## Helper lemmas: substring containment -/

theorem infixChars_eq_true_iff (sub s : List Char) :
    infixChars sub s = true ↔ sub <:+: s := by
  unfold infixChars
  rw [List.any_eq_true]
  constructor
  · rintro ⟨t, ht, hp⟩
    rw [List.mem_tails] at ht
    rw [List.isPrefixOf_iff_prefix] at hp
    obtain ⟨r, rfl⟩ := hp
    obtain ⟨p, rfl⟩ := ht
    exact ⟨p, r, by simp⟩
  · rintro ⟨p, r, rfl⟩
    refine ⟨sub ++ r, (List.mem_tails _ _).mpr ⟨p, by simp⟩, ?_⟩
    rw [List.isPrefixOf_iff_prefix]
    exact ⟨r, rfl⟩

theorem strData_append (a b : String) : (a ++ b).data = a.data ++ b.data := rfl

theorem pyIn_append_of_right (sub a b : String)
    (h : pyIn sub b = true) : pyIn sub (a ++ b) = true := by
  unfold pyIn at h ⊢
  rw [strData_append]
  rw [infixChars_eq_true_iff] at h ⊢
  obtain ⟨p, q, hpq⟩ := h
  exact ⟨a.data ++ p, q, by simp [← hpq, List.append_assoc]⟩

theorem pyIn_append_of_left (sub a b : String)
    (h : pyIn sub a = true) : pyIn sub (a ++ b) = true := by
  unfold pyIn at h ⊢
  rw [strData_append]
  rw [infixChars_eq_true_iff] at h ⊢
  obtain ⟨p, q, hpq⟩ := h
  exact ⟨p, q ++ b.data, by simp [← hpq, List.append_assoc]⟩

theorem pyIn_self_middle (sub a b : String) :
    pyIn sub (a ++ sub ++ b) = true := by
  unfold pyIn
  rw [infixChars_eq_true_iff]
  exact ⟨a.data, b.data, by simp [strData_append]⟩

theorem pyIn_refLines (u : String) : ∀ (l : List String) (i : Nat), u ∈ l →
    pyIn u (refLines i l) = true := by
  intro l
  induction l with
  | nil => intro i h; cases h
  | cons v rest ih =>
      intro i h
      rcases List.mem_cons.mp h with rfl | h
      · show pyIn u (Nat.repr i ++ ". " ++ u ++ "\n" ++ refLines (i + 1) rest) = true
        unfold pyIn
        rw [infixChars_eq_true_iff]
        exact ⟨(Nat.repr i).data ++ ". ".data,
               "\n".data ++ (refLines (i + 1) rest).data,
               by simp [strData_append, List.append_assoc]⟩
      · have h2 : pyIn u ("\n" ++ refLines (i + 1) rest) = true :=
          pyIn_append_of_right u "\n" _ (ih (i + 1) h)
        show pyIn u (Nat.repr i ++ ". " ++ v ++ "\n" ++ refLines (i + 1) rest) = true
        have h3 := pyIn_append_of_right u (Nat.repr i ++ ". " ++ v ++ "\n")
          (refLines (i + 1) rest) (ih (i + 1) h)
        simpa [String.append_assoc] using h3

/-! ## Claim C1 -/

/-- C1 counterexample.  The model output `{}` (written here with escaped
braces) is valid JSON — `json.loads` returns the empty dict, as the
`parseEmptyObj` oracle does — and `analyze_search_results` returns that
dict verbatim, so the returned analysis does NOT carry the four fields
`key_findings`, `summary`, `topics`, `gaps`.  This refutes the claim that
analyze always returns a result with all four fields present. -/
theorem C1_counterexample :
    analyze_search_results parseEmptyObj (Except.ok "\x7b\x7d") =
      Except.ok (Json.obj []) ∧
    analysisHasAllFields (Json.obj []) = false :=
  ⟨rfl, rfl⟩

/-- C1 (amended): `analyze_search_results` never raises on a malformed
model response: when `json.loads` fails on the fence-stripped response it
returns exactly the degraded dict
`{key_findings:[t], summary:t, topics:[], gaps:[]}` (with `t` the
fence-stripped response), which does carry all four fields; when the
response parses, the parsed value is returned verbatim — in which case no
field is guaranteed. -/
theorem C1_analyze_degrades (parse : String → Option Json) (raw : String) :
    (∀ j, parse (pyStrip (fenceStrip (pyStrip raw))) = some j →
      analyze_search_results parse (Except.ok raw) = Except.ok j) ∧
    (parse (pyStrip (fenceStrip (pyStrip raw))) = none →
      analyze_search_results parse (Except.ok raw) =
        Except.ok (degradedJson (fenceStrip (pyStrip raw))) ∧
      analysisHasAllFields (degradedJson (fenceStrip (pyStrip raw))) = true) := by
  constructor
  · intro j h
    simp only [analyze_search_results, h]
  · intro h
    refine ⟨?_, rfl⟩
    simp only [analyze_search_results, h]

/-- C1 witness: on a response that fails to parse, the degraded dict with
all four fields is returned. -/
theorem C1_witness :
    analyze_search_results parseNever (Except.ok "oops") =
      Except.ok (degradedJson "oops") ∧
    analysisHasAllFields (degradedJson "oops") = true :=
  (C1_analyze_degrades parseNever "oops").2 rfl

/-! ## Claim C2 -/

/-- C2 counterexample.  When the model text already contains the heading
`## References` the source returns it unchanged, even though it enumerates
none of the collected source urls (here `http://a`).  This refutes the
claim that synthesize's output always enumerates the full source-url
set. -/
theorem C2_counterexample :
    synthesize_research "t" [roundA] (Except.ok "## References") =
      "## References" ∧
    collectUrls [roundA] = ["http://a"] ∧
    pyIn "http://a" "## References" = false :=
  ⟨rfl, rfl, rfl⟩

/-- C2 (amended): when the model call succeeds and its text lacks both the
`## 参考来源` and the `## References` heading, `synthesize_research`
appends a references section enumerating the deduplicated, sorted
source-url set of all rounds (so the output contains the heading and every
such url); when the text already contains either heading it is returned
unchanged, with no guarantee about the enumeration. -/
theorem C2_synthesize_references (topic : String)
    (all_rounds : List ResearchRound) (report : String) :
    ((pyIn "## 参考来源" report = false ∧ pyIn "## References" report = false) →
      synthesize_research topic all_rounds (Except.ok report) =
        report ++ "\n\n## 参考来源 (References)\n\n" ++
          refLines 1 (sortedDedup (collectUrls all_rounds)) ∧
      pyIn "## 参考来源" (synthesize_research topic all_rounds (Except.ok report)) = true ∧
      (∀ u ∈ sortedDedup (collectUrls all_rounds),
        pyIn u (synthesize_research topic all_rounds (Except.ok report)) = true)) ∧
    ((pyIn "## 参考来源" report = true ∨ pyIn "## References" report = true) →
      synthesize_research topic all_rounds (Except.ok report) = report) := by
  have hdef : synthesize_research topic all_rounds (Except.ok report) =
      if !(pyIn "## 参考来源" report) && !(pyIn "## References" report) then
        report ++ "\n\n## 参考来源 (References)\n\n" ++
          refLines 1 (sortedDedup (collectUrls all_rounds))
      else report := rfl
  constructor
  · rintro ⟨h1, h2⟩
    have heq : synthesize_research topic all_rounds (Except.ok report) =
        report ++ "\n\n## 参考来源 (References)\n\n" ++
          refLines 1 (sortedDedup (collectUrls all_rounds)) := by
      rw [hdef, h1, h2]; rfl
    refine ⟨heq, ?_, ?_⟩
    · rw [heq]
      exact pyIn_append_of_left "## 参考来源" _ _
        (pyIn_append_of_right "## 参考来源" report "\n\n## 参考来源 (References)\n\n"
          (by decide))
    · intro u hu
      rw [heq]
      exact pyIn_append_of_right u _ _ (pyIn_refLines u _ 1 hu)
  · intro h
    rw [hdef]
    rcases h with h | h <;> simp [h]

/-- C2 witness: a heading-free model text over one round with source
`http://a` gets the enumerating section appended. -/
theorem C2_witness :
    synthesize_research "t" [roundA] (Except.ok "body") =
      "body" ++ "\n\n## 参考来源 (References)\n\n" ++ refLines 1 ["http://a"] ∧
    pyIn "http://a" (synthesize_research "t" [roundA] (Except.ok "body")) = true :=
  ⟨((C2_synthesize_references "t" [roundA] "body").1 ⟨rfl, rfl⟩).1,
   ((C2_synthesize_references "t" [roundA] "body").1 ⟨rfl, rfl⟩).2.2 "http://a" (by decide)⟩

/-! ## Claim C7 -/

/-- C7 counterexample.  With `maxResults = 1` the provider honours the cap
on every attempt (each attempt yields exactly one record), yet `search`
returns 2 records: the record yielded by attempt 0 before its mid-iteration
exception stays in `results` (initialised outside the retry loop,
src/core/search_engine.py line 38) and the record of the succeeding attempt
1 is appended to it.  This refutes "search returns a list of at most
maxResults records". -/
theorem C7_counterexample :
    (attemptPartialThenOk 0).yielded.length = 1 ∧
    (attemptPartialThenOk 1).yielded.length = 1 ∧
    (search attemptPartialThenOk 3 1).results.length = 2 :=
  ⟨rfl, rfl, rfl⟩

/-- All-failure behaviour of the retry loop: starting from retry count
`rc` with matching fuel, every remaining attempt fails, so the loop returns
`[]` after `maxRetries` total attempts, sleeping
`retryDelay * 2^k` for `k = rc, ..., maxRetries - 2` on the way. -/
theorem searchGo_allFail (attempt : Nat → SearchAttempt)
    (maxRetries retryDelay : Nat)
    (hfail : ∀ i, i < maxRetries → (attempt i).ok = false) :
    ∀ fuel rc acc delays, 1 ≤ fuel → fuel + rc = maxRetries →
      searchGo attempt maxRetries retryDelay fuel rc acc delays =
        ⟨[], maxRetries,
          delays ++ (List.range' rc (maxRetries - 1 - rc)).map
            (fun k => retryDelay * 2 ^ k)⟩ := by
  intro fuel
  induction fuel with
  | zero => intro rc acc delays h; omega
  | succ f ih =>
      intro rc acc delays _ hsum
      have hrc : rc < maxRetries := by omega
      have hok : (attempt rc).ok = false := hfail rc hrc
      rw [searchGo, hok]
      simp only [Bool.false_eq_true, if_false]
      by_cases hlt : rc + 1 < maxRetries
      · rw [if_pos hlt]
        rw [ih (rc + 1) (acc ++ (attempt rc).yielded.map toRecord)
              (delays ++ [retryDelay * 2 ^ rc]) (by omega) (by omega)]
        have hn : maxRetries - 1 - rc = (maxRetries - 1 - (rc + 1)) + 1 := by omega
        rw [hn, List.range'_succ, List.map_cons]
        simp [List.append_assoc]
      · rw [if_neg hlt]
        have : rc + 1 = maxRetries := by omega
        have hz : maxRetries - 1 - rc = 0 := by omega
        rw [hz]
        simp [this]

/-- When failed attempts yield nothing, the accumulated results come from
the single succeeding attempt. -/
theorem searchGo_len_le (attempt : Nat → SearchAttempt)
    (maxRetries retryDelay maxResults : Nat)
    (hfy : ∀ i, (attempt i).ok = false → (attempt i).yielded = [])
    (hcap : ∀ i, (attempt i).yielded.length ≤ maxResults) :
    ∀ fuel rc delays,
      (searchGo attempt maxRetries retryDelay fuel rc [] delays).results.length
        ≤ maxResults := by
  intro fuel
  induction fuel with
  | zero => intro rc delays; simp [searchGo]
  | succ f ih =>
      intro rc delays
      rw [searchGo]
      by_cases hok : (attempt rc).ok
      · rw [if_pos hok]
        simpa using hcap rc
      · rw [if_neg hok]
        have hy : (attempt rc).yielded = [] :=
          hfy rc (by simpa using hok)
        by_cases hlt : rc + 1 < maxRetries
        · rw [if_pos hlt]
          simpa [hy] using ih (rc + 1) (delays ++ [retryDelay * 2 ^ rc])
        · rw [if_neg hlt]
          simp

/-- C7 (amended): `search` is total (never raises).  On persistent provider
failure it makes exactly `MAX_RETRIES` attempts, sleeps the exponential
back-off sequence `RETRY_DELAY * 2^k` for `k = 0, ..., MAX_RETRIES - 2`
between them, and returns the empty list.  The `≤ maxResults` bound holds
under the extra assumptions that every attempt yields at most `maxResults`
records and failed attempts yield none — without them partial yields of a
failed attempt accumulate (see the counterexample). -/
theorem C7_search_spec (attempt : Nat → SearchAttempt)
    (maxRetries retryDelay maxResults : Nat) :
    ((∀ i, i < maxRetries → (attempt i).ok = false) → 1 ≤ maxRetries →
      search attempt maxRetries retryDelay =
        ⟨[], maxRetries,
          (List.range (maxRetries - 1)).map (fun k => retryDelay * 2 ^ k)⟩) ∧
    ((∀ i, (attempt i).ok = false → (attempt i).yielded = []) →
     (∀ i, (attempt i).yielded.length ≤ maxResults) →
      (search attempt maxRetries retryDelay).results.length ≤ maxResults) := by
  constructor
  · intro hfail hmax
    unfold search
    rw [searchGo_allFail attempt maxRetries retryDelay hfail maxRetries 0 [] []
          hmax (by omega)]
    rw [List.range_eq_range']
    simp
  · intro hfy hcap
    exact searchGo_len_le attempt maxRetries retryDelay maxResults hfy hcap maxRetries 0 []

/-- C7 witness: three attempts yielding nothing and failing give `[]`,
attempt count 3 and back-off sleeps `[1, 2]` (RETRY_DELAY = 1). -/
theorem C7_witness :
    search (fun _ => ⟨[], false⟩) 3 1 = ⟨[], 3, [1, 2]⟩ ∧
    (search (fun _ => ⟨[], false⟩) 3 1).results.length ≤ 5 :=
  ⟨by
    have h := (C7_search_spec (fun _ => ⟨[], false⟩) 3 1 5).1
      (fun i _ => rfl) (by omega)
    simpa using h,
   (C7_search_spec (fun _ => ⟨[], false⟩) 3 1 5).2 (fun i _ => rfl) (fun i => by simp)⟩

/-! ## Claims C8 and C9: content extractor lemmas -/

theorem dictGet_cons (p : String × String) (rest : List (String × String))
    (k : String) :
    dictGet (p :: rest) k = if p.1 = k then some p.2 else dictGet rest k := by
  by_cases h : p.1 = k
  · have hb : (p.1 == k) = true := by simpa using h
    simp [dictGet, List.find?_cons, hb, h]
  · have hb : (p.1 == k) = false := by simpa using h
    simp [dictGet, List.find?_cons, hb, h]

theorem dictGet_dictInsert_self (m : List (String × String)) (k v : String) :
    dictGet (dictInsert m k v) k = some v := by
  induction m with
  | nil => simp [dictInsert, dictGet_cons]
  | cons p rest ih =>
      by_cases h : p.1 = k
      · simp [dictInsert, h, dictGet_cons]
      · simp [dictInsert, h, dictGet_cons, ih]

theorem dictGet_dictInsert_ne (m : List (String × String)) (k v x : String)
    (hx : x ≠ k) : dictGet (dictInsert m k v) x = dictGet m x := by
  have hkx : ¬ (k = x) := fun h => hx h.symm
  induction m with
  | nil => simp [dictInsert, dictGet_cons, dictGet, hkx]
  | cons p rest ih =>
      by_cases h : p.1 = k
      · subst h
        simp [dictInsert, dictGet_cons, hkx]
      · simp only [dictInsert, if_neg h]
        rw [dictGet_cons, dictGet_cons, ih]

theorem mem_dictInsert_self (m : List (String × String)) (k v : String) :
    (k, v) ∈ dictInsert m k v := by
  induction m with
  | nil => simp [dictInsert]
  | cons p rest ih =>
      by_cases h : p.1 = k
      · simp [dictInsert, h]
      · simp only [dictInsert, if_neg h]
        exact List.mem_cons_of_mem p ih

theorem mem_dictInsert_ne (m : List (String × String)) (k v : String)
    (p : String × String) (hp : p ∈ m) (hne : p.1 ≠ k) :
    p ∈ dictInsert m k v := by
  induction m with
  | nil => cases hp
  | cons q rest ih =>
      by_cases h : q.1 = k
      · simp only [dictInsert, if_pos h]
        rcases List.mem_cons.mp hp with rfl | hp2
        · exact absurd h hne
        · exact List.mem_cons_of_mem _ hp2
      · simp only [dictInsert, if_neg h]
        rcases List.mem_cons.mp hp with rfl | hp2
        · exact List.mem_cons_self _ _
        · exact List.mem_cons_of_mem _ (ih hp2)

theorem mem_dictInsert_elim (m : List (String × String)) (k v : String)
    (p : String × String) (hp : p ∈ dictInsert m k v) :
    p ∈ m ∨ p = (k, v) := by
  induction m with
  | nil => simpa [dictInsert] using hp
  | cons q rest ih =>
      by_cases h : q.1 = k
      · simp only [dictInsert, if_pos h] at hp
        rcases List.mem_cons.mp hp with rfl | hp2
        · exact Or.inr rfl
        · exact Or.inl (List.mem_cons_of_mem _ hp2)
      · simp only [dictInsert, if_neg h] at hp
        rcases List.mem_cons.mp hp with rfl | hp2
        · exact Or.inl (List.mem_cons_self _ _)
        · rcases ih hp2 with h2 | h2
          · exact Or.inl (List.mem_cons_of_mem _ h2)
          · exact Or.inr h2

/-- A successful pass through the retry loop installs the content in the
cache; a failing pass leaves the cache untouched. -/
theorem extractGo_cases (attempt : Nat → FetchOutcome) (mr ml : Nat)
    (url : String) (cache : List (String × String)) :
    ∀ fuel rc,
      (∀ c cache2 n,
        extractGo attempt mr ml url cache fuel rc = (some c, cache2, n) →
        cache2 = dictInsert cache url c) ∧
      (∀ cache2 n,
        extractGo attempt mr ml url cache fuel rc = (none, cache2, n) →
        cache2 = cache) := by
  intro fuel
  induction fuel with
  | zero =>
      intro rc
      constructor
      · intro c cache2 n h; simp [extractGo] at h
      · intro cache2 n h; simp [extractGo] at h; exact h.1.symm
  | succ f ih =>
      intro rc
      constructor
      · intro c cache2 n h
        rw [extractGo] at h
        cases hat : attempt rc with
        | page t =>
            rw [hat] at h
            simp at h
            obtain ⟨h1, h2, -⟩ := h
            rw [← h1, ← h2]
        | noContent => rw [hat] at h; simp at h
        | parseError => rw [hat] at h; simp at h
        | reqError =>
            rw [hat] at h
            by_cases hlt : rc + 1 < mr
            · rw [if_pos hlt] at h
              exact (ih (rc + 1)).1 c cache2 n h
            · rw [if_neg hlt] at h
              simp at h
      · intro cache2 n h
        rw [extractGo] at h
        cases hat : attempt rc with
        | page t => rw [hat] at h; simp at h
        | noContent => rw [hat] at h; simp at h; exact h.1.symm
        | parseError => rw [hat] at h; simp at h; exact h.1.symm
        | reqError =>
            rw [hat] at h
            by_cases hlt : rc + 1 < mr
            · rw [if_pos hlt] at h
              exact (ih (rc + 1)).2 cache2 n h
            · rw [if_neg hlt] at h
              simp at h
              exact h.1.symm

/-- A cache hit short-circuits `extract_content`. -/
theorem extract_content_cache_hit (attempt : Nat → FetchOutcome)
    (mr ml : Nat) (cache : List (String × String)) (url c : String)
    (h : dictGet cache url = some c) :
    extract_content attempt mr ml cache url = (some c, cache, 0) := by
  unfold extract_content
  rw [h]

/-- After a successful `extract_content`, the returned text is cached
under the url, and every pre-existing cache binding is preserved. -/
theorem extract_content_some_cached (attempt : Nat → FetchOutcome)
    (mr ml : Nat) (cache : List (String × String)) (url c : String)
    (cache2 : List (String × String)) (n : Nat)
    (h : extract_content attempt mr ml cache url = (some c, cache2, n)) :
    dictGet cache2 url = some c ∧
    (∀ x v, dictGet cache x = some v → dictGet cache2 x = some v) := by
  unfold extract_content at h
  cases hc : dictGet cache url with
  | some c0 =>
      rw [hc] at h
      simp at h
      obtain ⟨h1, h2, -⟩ := h
      subst h1; rw [← h2]
      exact ⟨hc, fun x v hv => hv⟩
  | none =>
      rw [hc] at h
      have := (extractGo_cases attempt mr ml url cache mr 0).1 c cache2 n h
      subst this
      refine ⟨dictGet_dictInsert_self cache url c, ?_⟩
      intro x v hv
      have hx : x ≠ url := fun hxe => by rw [hxe, hc] at hv; cases hv
      rw [dictGet_dictInsert_ne cache url c x hx]
      exact hv

/-- A failing `extract_content` leaves the cache untouched. -/
theorem extract_content_none_cache (attempt : Nat → FetchOutcome)
    (mr ml : Nat) (cache : List (String × String)) (url : String)
    (cache2 : List (String × String)) (n : Nat)
    (h : extract_content attempt mr ml cache url = (none, cache2, n)) :
    cache2 = cache := by
  unfold extract_content at h
  cases hc : dictGet cache url with
  | some c0 => rw [hc] at h; simp at h
  | none =>
      rw [hc] at h
      exact (extractGo_cases attempt mr ml url cache mr 0).2 cache2 n h

/-- `extract_content` only grows the cache (as a map). -/
theorem extract_content_mono (attempt : Nat → FetchOutcome)
    (mr ml : Nat) (cache : List (String × String)) (url x v : String)
    (hv : dictGet cache x = some v) :
    dictGet (extract_content attempt mr ml cache url).2.1 x = some v := by
  rcases htup : extract_content attempt mr ml cache url with ⟨r, cache2, n⟩
  cases r with
  | some c => exact (extract_content_some_cached attempt mr ml cache url c cache2 n htup).2 x v hv
  | none => rw [extract_content_none_cache attempt mr ml cache url cache2 n htup]; exact hv

/-- C8 (confirmed): `extract` is idempotent per url.  Once
`extract_content` has succeeded for `url` (any attempt behaviour, any
starting cache), a subsequent call on the resulting cache returns the
identical text with the cache unchanged and ZERO network requests — the
second call's network behaviour `attempt2` is irrelevant. -/
theorem C8_extract_idempotent (attempt attempt2 : Nat → FetchOutcome)
    (mr ml : Nat) (cache : List (String × String)) (url c : String)
    (cache2 : List (String × String)) (n : Nat)
    (h : extract_content attempt mr ml cache url = (some c, cache2, n)) :
    extract_content attempt2 mr ml cache2 url = (some c, cache2, 0) :=
  extract_content_cache_hit attempt2 mr ml cache2 url c
    (extract_content_some_cached attempt mr ml cache url c cache2 n h).1

/-- C8 witness: after a successful fetch of `u` (one request, text `hi`),
a second call whose network always fails still returns `hi` from the cache
with zero requests. -/
theorem C8_witness :
    extract_content (fun _ => FetchOutcome.reqError) 3 5000 [("u", "hi")] "u" =
      (some "hi", [("u", "hi")], 0) :=
  C8_extract_idempotent (fun _ => FetchOutcome.page "hi")
    (fun _ => FetchOutcome.reqError) 3 5000 [] "u" "hi" [("u", "hi")] 1 rfl

/-! ## Claim C9 -/

/-- C9 counterexample.  A page whose extracted text is empty: the
extraction SUCCEEDS (`extract_content` returns `Some("")`, not `None`, and
caches it), yet `extract_multiple` omits the url because of the truthiness
test `if content:` (src/core/content_extractor.py line 148).  So the
mapping does not contain exactly the successful urls. -/
theorem C9_counterexample :
    (extract_content (fun _ => FetchOutcome.page "") 3 5000 [] "u").1 = some "" ∧
    (extract_multiple (fun _ _ => FetchOutcome.page "") 3 5000 [] ["u"]).1 = [] :=
  ⟨rfl, rfl⟩

/-- Soundness of the collection fold: every recorded entry was already
recorded, or is the ACTUAL extraction outcome of one of the processed
urls: at some position `k` the url equals the entry's key and its
extraction, run against the cache state of that step, returned exactly the
entry's (non-empty) text. -/
theorem emGo_sound_strong (mr ml : Nat) :
    ∀ (urls : List String) (attempts : Nat → Nat → FetchOutcome)
      (res cache : List (String × String)) (p : String × String),
      p ∈ (extractMultipleGo attempts mr ml urls res cache).1 →
      p ∈ res ∨
        ∃ k, ∃ hk : k < urls.length,
          urls.get ⟨k, hk⟩ = p.1 ∧
          (extract_content (attempts k) mr ml
              (cacheAfter attempts mr ml cache (urls.take k))
              (urls.get ⟨k, hk⟩)).1 = some p.2 ∧
          p.2 ≠ "" := by
  intro urls
  induction urls with
  | nil => intro attempts res cache p hp; exact Or.inl hp
  | cons url rest ih =>
      intro attempts res cache p hp
      rcases htup : extract_content (attempts 0) mr ml cache url with ⟨r, cache2, n2⟩
      have hlift : ∀ q : String × String,
          (∃ k, ∃ hk : k < rest.length,
            rest.get ⟨k, hk⟩ = q.1 ∧
            (extract_content ((fun i => attempts (i + 1)) k) mr ml
                (cacheAfter (fun i => attempts (i + 1)) mr ml cache2 (rest.take k))
                (rest.get ⟨k, hk⟩)).1 = some q.2 ∧
            q.2 ≠ "") →
          ∃ k, ∃ hk : k < (url :: rest).length,
            (url :: rest).get ⟨k, hk⟩ = q.1 ∧
            (extract_content (attempts k) mr ml
                (cacheAfter attempts mr ml cache ((url :: rest).take k))
                ((url :: rest).get ⟨k, hk⟩)).1 = some q.2 ∧
            q.2 ≠ "" := by
        rintro q ⟨k, hk, hgetk, hexk, hnek⟩
        refine ⟨k + 1, by simpa using Nat.succ_lt_succ hk, hgetk, ?_, hnek⟩
        have hca : cacheAfter attempts mr ml cache ((url :: rest).take (k + 1)) =
            cacheAfter (fun i => attempts (i + 1)) mr ml cache2 (rest.take k) := by
          simp only [List.take_succ_cons, cacheAfter]
          rw [htup]
        rw [hca]
        exact hexk
      cases r with
      | none =>
          simp only [extractMultipleGo, htup] at hp
          rcases ih _ _ _ p hp with h | h
          · exact Or.inl h
          · exact Or.inr (hlift p h)
      | some c =>
          simp only [extractMultipleGo, htup] at hp
          by_cases hc : c = ""
          · rw [if_pos hc] at hp
            rcases ih _ _ _ p hp with h | h
            · exact Or.inl h
            · exact Or.inr (hlift p h)
          · rw [if_neg hc] at hp
            rcases ih _ _ _ p hp with h | h
            · rcases mem_dictInsert_elim res url c p h with h2 | rfl
              · exact Or.inl h2
              · refine Or.inr ⟨0, by simp, rfl, ?_, hc⟩
                show (extract_content (attempts 0) mr ml cache url).1 = some c
                rw [htup]
            · exact Or.inr (hlift p h)

/-- A recorded entry that is also cached survives the rest of the fold:
later occurrences of the same url hit the cache and re-insert the same
value; other urls never displace it. -/
theorem emGo_preserve (mr ml : Nat) :
    ∀ (urls : List String) (attempts : Nat → Nat → FetchOutcome)
      (res cache : List (String × String)) (u c : String),
      (u, c) ∈ res → c ≠ "" → dictGet cache u = some c →
      (u, c) ∈ (extractMultipleGo attempts mr ml urls res cache).1 := by
  intro urls
  induction urls with
  | nil => intro attempts res cache u c hres hc hcache; exact hres
  | cons url rest ih =>
      intro attempts res cache u c hres hc hcache
      by_cases hu : url = u
      · subst hu
        have hhit := extract_content_cache_hit (attempts 0) mr ml cache url c hcache
        simp only [extractMultipleGo, hhit]
        rw [if_neg hc]
        exact ih _ _ _ url c (mem_dictInsert_self res url c) hc hcache
      · rcases htup : extract_content (attempts 0) mr ml cache url with ⟨r, cache2, n2⟩
        have hmono : dictGet cache2 u = some c := by
          have h2 := extract_content_mono (attempts 0) mr ml cache url u c hcache
          rw [htup] at h2
          exact h2
        cases r with
        | none =>
            simp only [extractMultipleGo, htup]
            exact ih _ _ _ u c hres hc hmono
        | some c2 =>
            simp only [extractMultipleGo, htup]
            by_cases hc2 : c2 = ""
            · rw [if_pos hc2]
              exact ih _ _ _ u c hres hc hmono
            · rw [if_neg hc2]
              exact ih _ _ _ u c
                (mem_dictInsert_ne res url c2 (u, c) hres (fun he => hu he.symm))
                hc hmono

/-- Completeness of the collection fold: if the `k`-th url's extraction
(at the cache state it actually runs against) succeeds with non-empty
text, the pair is in the final mapping. -/
theorem emGo_complete (mr ml : Nat) :
    ∀ (urls : List String) (attempts : Nat → Nat → FetchOutcome)
      (res cache : List (String × String)) (k : Nat) (hk : k < urls.length)
      (c : String),
      (extract_content (attempts k) mr ml
          (cacheAfter attempts mr ml cache (urls.take k))
          (urls.get ⟨k, hk⟩)).1 = some c →
      c ≠ "" →
      (urls.get ⟨k, hk⟩, c) ∈ (extractMultipleGo attempts mr ml urls res cache).1 := by
  intro urls
  induction urls with
  | nil => intro attempts res cache k hk; cases hk
  | cons url rest ih =>
      intro attempts res cache k hk c hex hc
      cases k with
      | zero =>
          rcases htup : extract_content (attempts 0) mr ml cache url with ⟨r, cache2, n2⟩
          simp only [List.take_zero, cacheAfter, List.get] at hex
          rw [htup] at hex
          simp at hex
          subst hex
          simp only [extractMultipleGo, htup]
          rw [if_neg hc]
          exact emGo_preserve mr ml rest _ _ _ url c
            (mem_dictInsert_self res url c) hc
            (extract_content_some_cached (attempts 0) mr ml cache url c cache2 n2 htup).1
      | succ j =>
          rcases htup : extract_content (attempts 0) mr ml cache url with ⟨r, cache2, n2⟩
          have hex2 : (extract_content ((fun i => attempts (i + 1)) j) mr ml
              (cacheAfter (fun i => attempts (i + 1)) mr ml cache2 (rest.take j))
              (rest.get ⟨j, by simpa using hk⟩)).1 = some c := by
            have hca : cacheAfter attempts mr ml cache ((url :: rest).take (j + 1)) =
                cacheAfter (fun i => attempts (i + 1)) mr ml cache2 (rest.take j) := by
              simp only [List.take_succ_cons, cacheAfter]
              rw [htup]
            rw [hca] at hex
            exact hex
          cases r with
          | none =>
              simp only [extractMultipleGo, htup]
              exact ih _ _ _ j (by simpa using hk) c hex2 hc
          | some c2 =>
              simp only [extractMultipleGo, htup]
              by_cases hc2 : c2 = ""
              · rw [if_pos hc2]
                exact ih _ _ _ j (by simpa using hk) c hex2 hc
              · rw [if_neg hc2]
                exact ih _ _ _ j (by simpa using hk) c hex2 hc

/-- C9 (amended): `extract_multiple` is total (never raises, even if all
urls fail) and its mapping contains exactly the urls whose extraction
succeeded WITH NON-EMPTY text, each mapped to that text:
(soundness) every entry of the mapping is, at some position `k`, that
url's actual extraction outcome — run against the cache state of step `k`
— and the text is non-empty; in particular
(all-fail) if no url's extraction returns non-empty text the mapping is
empty; and
(completeness) every url whose extraction at its step returns non-empty
text appears in the mapping with that text.
One url's failure leaves the cache, and hence every sibling's outcome,
unchanged. -/
theorem C9_extract_multiple_exact (attempts : Nat → Nat → FetchOutcome)
    (mr ml : Nat) (cache : List (String × String)) (urls : List String) :
    (∀ p ∈ (extract_multiple attempts mr ml cache urls).1,
      ∃ k, ∃ hk : k < urls.length,
        urls.get ⟨k, hk⟩ = p.1 ∧
        (extract_content (attempts k) mr ml
            (cacheAfter attempts mr ml cache (urls.take k))
            (urls.get ⟨k, hk⟩)).1 = some p.2 ∧
        p.2 ≠ "") ∧
    ((∀ (k : Nat) (hk : k < urls.length) (c : String),
        (extract_content (attempts k) mr ml
            (cacheAfter attempts mr ml cache (urls.take k))
            (urls.get ⟨k, hk⟩)).1 = some c → c = "") →
      (extract_multiple attempts mr ml cache urls).1 = []) ∧
    (∀ (k : Nat) (hk : k < urls.length) (c : String),
      (extract_content (attempts k) mr ml
          (cacheAfter attempts mr ml cache (urls.take k))
          (urls.get ⟨k, hk⟩)).1 = some c →
      c ≠ "" →
      (urls.get ⟨k, hk⟩, c) ∈ (extract_multiple attempts mr ml cache urls).1) := by
  have hsound : ∀ p ∈ (extract_multiple attempts mr ml cache urls).1,
      ∃ k, ∃ hk : k < urls.length,
        urls.get ⟨k, hk⟩ = p.1 ∧
        (extract_content (attempts k) mr ml
            (cacheAfter attempts mr ml cache (urls.take k))
            (urls.get ⟨k, hk⟩)).1 = some p.2 ∧
        p.2 ≠ "" := by
    intro p hp
    rcases emGo_sound_strong mr ml urls attempts [] cache p hp with h | h
    · cases h
    · exact h
  refine ⟨hsound, ?_, ?_⟩
  · intro hall
    rcases hres : (extract_multiple attempts mr ml cache urls).1 with _ | ⟨p, rest2⟩
    · rfl
    · exfalso
      have hp : p ∈ (extract_multiple attempts mr ml cache urls).1 := by
        rw [hres]
        exact List.mem_cons_self _ _
      obtain ⟨k, hk, -, hex, hne⟩ := hsound p hp
      exact hne (hall k hk p.2 hex)
  · intro k hk c h1 h2
    exact emGo_complete mr ml urls attempts [] cache k hk c h1 h2

/-- C9 witness: with two urls where the first fetch succeeds (`textA`) and
the second always fails, the successful url's entry is in the mapping; and
when every fetch fails the mapping is empty. -/
theorem C9_witness :
    ("a", "textA") ∈ (extract_multiple attemptsWitness 3 5000 [] ["a", "b"]).1 ∧
    (extract_multiple (fun _ _ => FetchOutcome.reqError) 3 5000 [] ["a", "b"]).1 = [] :=
  ⟨(C9_extract_multiple_exact attemptsWitness 3 5000 [] ["a", "b"]).2.2
      0 (by decide) "textA" rfl (by decide),
   (C9_extract_multiple_exact (fun _ _ => FetchOutcome.reqError) 3 5000 [] ["a", "b"]).2.1
      (by
        intro k hk c h
        simp at hk
        interval_cases k
        · exact Option.noConfusion h
        · exact Option.noConfusion h)⟩

/-! ## Orchestrator loop lemmas -/

/-- The per-round search phase concatenates the per-query results onto the
accumulator and appends exactly the non-empty urls of the new results to
the source accumulator. -/
theorem searchPhase_spec (cb : Option (String × Nat × Nat → Bool))
    (roundNum maxRounds : Nat) (sres : Nat → List SearchRecord) :
    ∀ (queries : List String) (qi : Nat) (acc : List SearchRecord)
      (srcs : List String) (A : List SearchRecord) (S : List String),
      searchPhase cb roundNum maxRounds sres qi queries acc srcs = .ok (A, S) →
      ∃ t, A = acc ++ t ∧
        S = srcs ++ (t.filter (fun r => r.url ≠ "")).map (fun r => r.url) := by
  intro queries
  induction queries with
  | nil =>
      intro qi acc srcs A S h
      simp only [searchPhase] at h
      injection h with h
      injection h with h1 h2
      exact ⟨[], by simp [← h1], by simp [← h2]⟩
  | cons q rest ih =>
      intro qi acc srcs A S h
      simp only [searchPhase] at h
      cases hcp : checkpoint cb
          (searchQueryMsg roundNum maxRounds q, roundNum + 1, maxRounds) with
      | error e => rw [hcp] at h; cases h
      | ok u =>
          rw [hcp] at h
          obtain ⟨t, ht1, ht2⟩ := ih (qi + 1) (acc ++ sres qi)
            (srcs ++ ((sres qi).filter (fun r => r.url ≠ "")).map (fun r => r.url))
            A S h
          refine ⟨sres qi ++ t, ?_, ?_⟩
          · rw [ht1, List.append_assoc]
          · rw [ht2, List.filter_append, List.map_append, List.append_assoc]

/-- Master lemma on the round loop.  From a state where `roundNum` rounds
are accumulated and the fuel matches `maxRounds`, a successful run extends
the rounds by a block `t` such that: the new sources are exactly the
non-empty urls of `t`'s search results; at most `fuel` rounds were added,
numbered consecutively from `roundNum + 1`; each added round's analysis
came from the environment, its query list is non-empty and (from round
index 1 on) equals `_generate_queries`' output; every added round except
the last reported gaps and was below the round cap; if the loop stopped
below the cap with the last round reporting gaps, the next round's
generated queries were empty; and with fuel left a run starting at round 0
adds at least one round. -/
theorem researchLoop_spec (topic : String) (maxRounds : Nat)
    (env : OrchestratorEnv) :
    ∀ (fuel roundNum : Nat) (rounds : List ResearchRound) (srcs : List String)
      (R : List ResearchRound) (S : List String),
      fuel + roundNum = maxRounds →
      researchLoop topic maxRounds env fuel roundNum rounds srcs = .ok (R, S) →
      ∃ t, R = rounds ++ t ∧
        S = srcs ++ (t.map roundUrls).flatten ∧
        t.length ≤ fuel ∧
        t.map (fun rd => rd.round_number) = List.range' (roundNum + 1) t.length ∧
        (∀ (j : Nat) (hj : j < t.length),
          env.analysisRes (roundNum + j) = .ok (t.get ⟨j, hj⟩).analysis ∧
          (t.get ⟨j, hj⟩).queries ≠ [] ∧
          (1 ≤ roundNum + j →
            (t.get ⟨j, hj⟩).queries =
              orchGenerateQueries (env.genQueries (roundNum + j))) ∧
          (j + 1 < t.length →
            (t.get ⟨j, hj⟩).analysis.gaps ≠ [] ∧ roundNum + j + 1 < maxRounds)) ∧
        (roundNum + t.length < maxRounds →
          (1 ≤ roundNum ∨ t ≠ []) →
          (∀ hne : t ≠ [], (t.getLast hne).analysis.gaps ≠ []) →
          orchGenerateQueries (env.genQueries (roundNum + t.length)) = []) ∧
        (1 ≤ fuel → roundNum = 0 → t ≠ []) := by
  intro fuel
  induction fuel with
  | zero =>
      intro roundNum rounds srcs R S hsum h
      simp only [researchLoop] at h
      injection h with h
      injection h with h1 h2
      refine ⟨[], by simp [← h1], by simp [← h2], by simp, by simp, ?_, ?_, ?_⟩
      · intro j hj; cases hj
      · intro hlt; omega
      · intro hf; omega
  | succ f ih =>
      intro roundNum rounds srcs R S hsum h
      simp only [researchLoop] at h
      cases hcp : checkpoint env.cb
          (roundStartMsg roundNum maxRounds, roundNum + 1, maxRounds) with
      | error e => rw [hcp] at h; cases h
      | ok u =>
      rw [hcp] at h
      by_cases hq : (if roundNum = 0 then [topic]
          else orchGenerateQueries (env.genQueries roundNum)) = []
      · rw [if_pos hq] at h
        injection h with h
        injection h with h1 h2
        have hrn : roundNum ≠ 0 := by
          intro h0
          rw [if_pos h0] at hq
          cases hq
        refine ⟨[], by simp [← h1], by simp [← h2], by simp, by simp, ?_, ?_, ?_⟩
        · intro j hj; cases hj
        · intro hlt hdisj hlast
          rw [if_neg hrn] at hq
          simpa using hq
        · intro hf h0; exact absurd h0 hrn
      · rw [if_neg hq] at h
        cases hsp : searchPhase env.cb roundNum maxRounds (env.searchRes roundNum) 0
            (if roundNum = 0 then [topic]
              else orchGenerateQueries (env.genQueries roundNum)) [] [] with
        | error e => rw [hsp] at h; cases h
        | ok pr =>
        rcases pr with ⟨allResults, newSrcs⟩
        rw [hsp] at h
        cases hcp2 : checkpoint env.cb
            (extractMsg roundNum maxRounds, roundNum + 1, maxRounds) with
        | error e => rw [hcp2] at h; cases h
        | ok u2 =>
        rw [hcp2] at h
        cases hcp3 : checkpoint env.cb
            (analyzeMsg roundNum maxRounds, roundNum + 1, maxRounds) with
        | error e => rw [hcp3] at h; cases h
        | ok u3 =>
        rw [hcp3] at h
        cases han : env.analysisRes roundNum with
        | error e => rw [han] at h; cases h
        | ok analysis =>
        rw [han] at h
        dsimp only at h
        obtain ⟨t1, ht1, ht2⟩ := searchPhase_spec env.cb roundNum maxRounds
          (env.searchRes roundNum) _ 0 [] [] allResults newSrcs hsp
        simp only [List.nil_append] at ht1 ht2
        subst ht1
        have hnew : newSrcs = roundUrls
            { round_number := roundNum + 1,
              queries := (if roundNum = 0 then [topic]
                else orchGenerateQueries (env.genQueries roundNum)),
              search_results := allResults,
              extracted_contents := env.extractRes roundNum
                ((allResults.take 10).map (fun r => r.url)),
              analysis := analysis } := ht2
        by_cases hmax : roundNum ≥ maxRounds - 1
        · rw [if_pos hmax] at h
          injection h with h
          injection h with h1 h2
          refine ⟨[⟨roundNum + 1,
              (if roundNum = 0 then [topic]
                else orchGenerateQueries (env.genQueries roundNum)),
              allResults,
              env.extractRes roundNum ((allResults.take 10).map (fun r => r.url)),
              analysis⟩], by simp [← h1], ?_, by simp, by simp [List.range'],
              ?_, ?_, ?_⟩
          · rw [← h2, hnew]; simp
          · intro j hj
            have hj0 : j = 0 := by simp at hj; omega
            subst hj0
            refine ⟨han, hq, ?_, ?_⟩
            · intro hrn
              have : roundNum ≠ 0 := by omega
              simp [this]
            · intro hcon; simp at hcon
          · intro hlt; simp at hlt; omega
          · intro hf h0; simp
        · rw [if_neg hmax] at h
          by_cases hgaps : analysis.gaps = []
          · rw [if_pos hgaps] at h
            injection h with h
            injection h with h1 h2
            refine ⟨[⟨roundNum + 1,
                (if roundNum = 0 then [topic]
                  else orchGenerateQueries (env.genQueries roundNum)),
                allResults,
                env.extractRes roundNum ((allResults.take 10).map (fun r => r.url)),
                analysis⟩], by simp [← h1], ?_, by simp, by simp [List.range'],
                ?_, ?_, ?_⟩
            · rw [← h2, hnew]; simp
            · intro j hj
              have hj0 : j = 0 := by simp at hj; omega
              subst hj0
              refine ⟨han, hq, ?_, ?_⟩
              · intro hrn
                have : roundNum ≠ 0 := by omega
                simp [this]
              · intro hcon; simp at hcon
            · intro hlt hdisj hlast
              have := hlast (by simp)
              simp at this
              exact absurd hgaps this
            · intro hf h0; simp
          · rw [if_neg hgaps] at h
            obtain ⟨t', h1', h2', h3', h4', h5', h6', h7'⟩ :=
              ih (roundNum + 1) _ _ R S (by omega) h
            refine ⟨⟨roundNum + 1,
                (if roundNum = 0 then [topic]
                  else orchGenerateQueries (env.genQueries roundNum)),
                allResults,
                env.extractRes roundNum ((allResults.take 10).map (fun r => r.url)),
                analysis⟩ :: t', ?_, ?_, ?_, ?_, ?_, ?_, ?_⟩
            · rw [h1']; simp
            · rw [h2', hnew]; simp [List.append_assoc]
            · simpa using Nat.succ_le_succ h3'
            · simp only [List.map_cons, List.length_cons, h4']
              rw [List.range'_succ]
            · intro j hj
              cases j with
              | zero =>
                  refine ⟨han, hq, ?_, ?_⟩
                  · intro hrn
                    have : roundNum ≠ 0 := by omega
                    simp [this]
                  · intro h2lt
                    exact ⟨hgaps, by omega⟩
              | succ j' =>
                  have hj' : j' < t'.length := by simpa using hj
                  have hfacts := h5' j' hj'
                  have hidx : roundNum + 1 + j' = roundNum + (j' + 1) := by omega
                  rw [hidx] at hfacts
                  refine ⟨hfacts.1, hfacts.2.1, ?_, ?_⟩
                  · intro _; exact hfacts.2.2.1 (by omega)
                  · intro h2lt
                    have := hfacts.2.2.2 (by simpa using h2lt)
                    exact ⟨this.1, by omega⟩
            · intro hlt hdisj hlast
              simp only [List.length_cons] at hlt ⊢
              have hidx : roundNum + (t'.length + 1) = roundNum + 1 + t'.length := by
                omega
              rw [hidx]
              refine h6' (by omega) (Or.inl (by omega)) ?_
              intro hne
              have := hlast (by simp)
              rw [List.getLast_cons hne] at this
              exact this
            · intro hf h0; simp

/-- Inversion of a successful `conduct_research`: the loop succeeded with
the result's rounds and a source list `S`, and the result's fields are
assembled exactly as in src/core/research_orchestrator.py lines 208-215. -/
theorem conduct_research_ok (topic : String) (maxRounds : Nat)
    (env : OrchestratorEnv) (r : ResearchResult)
    (h : conduct_research topic maxRounds env = .ok r) :
    ∃ S, researchLoop topic maxRounds env maxRounds 0 [] [] = .ok (r.rounds, S) ∧
      r.all_sources = sortedDedup S ∧
      r.final_report = synthesize_research topic r.rounds env.synthesisRes ∧
      r.total_rounds = r.rounds.length := by
  unfold conduct_research at h
  cases hl : researchLoop topic maxRounds env maxRounds 0 [] [] with
  | error e => rw [hl] at h; cases h
  | ok pr =>
      rcases pr with ⟨rounds, srcs⟩
      rw [hl] at h
      cases hcp : checkpoint env.cb ("正在生成最终报告...", maxRounds, maxRounds) with
      | error e => rw [hcp] at h; cases h
      | ok u =>
          rw [hcp] at h
          dsimp only at h
          injection h with h
          subst h
          exact ⟨srcs, rfl, rfl, rfl, rfl⟩

/-! ## Claim C4 -/

/-- C4 (confirmed): for every topic, `max_rounds ≥ 1` and collaborator
behaviour, a completed `conduct_research` has consecutively numbered
rounds `1..k` (`List.range' 1 k`, hence strictly increasing from 1) with
`k ≤ max_rounds`, and `total_rounds = len(rounds)`.  The loop itself is
structurally bounded by `max_rounds` iterations (its fuel). -/
theorem C4_round_numbering (topic : String) (maxRounds : Nat)
    (env : OrchestratorEnv) (r : ResearchResult) (_hmax : 1 ≤ maxRounds)
    (h : conduct_research topic maxRounds env = .ok r) :
    r.rounds.map (fun rd => rd.round_number) = List.range' 1 r.rounds.length ∧
    r.rounds.length ≤ maxRounds ∧
    r.total_rounds = r.rounds.length := by
  obtain ⟨S, hl, -, -, htot⟩ := conduct_research_ok topic maxRounds env r h
  obtain ⟨t, ht, -, hlen, hnum, -, -, -⟩ :=
    researchLoop_spec topic maxRounds env maxRounds 0 [] [] r.rounds S (by omega) hl
  simp only [List.nil_append] at ht
  subst ht
  exact ⟨hnum, hlen, htot⟩

/-- C4 witness: the benign one-round run has rounds numbered `[1]`,
`1 ≤ 3` rounds, and `total_rounds = len(rounds)`. -/
theorem C4_witness :
    benignResult.rounds.map (fun rd => rd.round_number) =
      List.range' 1 benignResult.rounds.length ∧
    benignResult.rounds.length ≤ 3 ∧
    benignResult.total_rounds = benignResult.rounds.length :=
  C4_round_numbering "t" 3 envBenign benignResult (by omega) (by rfl)

/-! ## Claim C5 -/

/-- C5 counterexample.  A search result whose `url` field is the empty
string: its url is never added to `all_sources` because of the truthiness
test `if result.get('url'):` (src/core/research_orchestrator.py line 134),
so `all_sources = []` while the deduplicated sorted union of the `url`
fields of the rounds' `search_results` is `[""]`. -/
theorem C5_counterexample :
    (conduct_research "t" 1 envEmptyUrl).map (fun r => r.all_sources) =
      .ok [] ∧
    (conduct_research "t" 1 envEmptyUrl).map (fun r => specAllSources r.rounds) =
      .ok [""] :=
  ⟨rfl, rfl⟩

/-- C5 (amended): for every completed `conduct_research`, `all_sources`
equals the deduplicated, sorted union of the NON-EMPTY urls across every
round's `search_results` (`collectUrls` filters the urls by Python
truthiness exactly as the source does). -/
theorem C5_all_sources (topic : String) (maxRounds : Nat)
    (env : OrchestratorEnv) (r : ResearchResult)
    (h : conduct_research topic maxRounds env = .ok r) :
    r.all_sources = sortedDedup (collectUrls r.rounds) := by
  obtain ⟨S, hl, hsrc, -, -⟩ := conduct_research_ok topic maxRounds env r h
  obtain ⟨t, ht, hS, -, -, -, -, -⟩ :=
    researchLoop_spec topic maxRounds env maxRounds 0 [] [] r.rounds S (by omega) hl
  simp only [List.nil_append] at ht hS
  subst ht
  rw [hsrc, hS]
  rfl

/-- C5 witness: the benign run's `all_sources` is the sorted deduplicated
non-empty url set of its rounds. -/
theorem C5_witness :
    benignResult.all_sources = sortedDedup (collectUrls benignResult.rounds) :=
  C5_all_sources "t" 3 envBenign benignResult (by rfl)

/-! ## Claim C6 -/

/-- C6 (confirmed): the continuation decision after appending a round.
(1) Whenever a later round exists ("the loop did not stop"), the earlier
round reported gaps AND was below the cap — i.e. the loop stops as soon as
the round index reaches `max_rounds` or the gaps list is empty;
(2) in particular a round-1 analysis with `gaps = []` yields
`total_rounds = 1` (for any `max_rounds ≥ 1`, so also for `max_rounds = 3`);
(3) conversely, when the last appended round reported gaps and was below
the cap, the loop went back to a next round — observable as the
consultation of `_generate_queries`, which returned `[]`. -/
theorem C6_continue_decision (topic : String) (maxRounds : Nat)
    (env : OrchestratorEnv) (r : ResearchResult) (hmax : 1 ≤ maxRounds)
    (h : conduct_research topic maxRounds env = .ok r) :
    (∀ (j : Nat) (hj : j + 1 < r.rounds.length),
      (r.rounds.get ⟨j, by omega⟩).analysis.gaps ≠ [] ∧ j + 1 < maxRounds) ∧
    (∀ a, env.analysisRes 0 = .ok a → a.gaps = [] → r.total_rounds = 1) ∧
    (r.rounds.length < maxRounds →
      ∀ hne : r.rounds ≠ [],
        (r.rounds.getLast hne).analysis.gaps ≠ [] →
        orchGenerateQueries (env.genQueries r.rounds.length) = []) := by
  obtain ⟨S, hl, -, -, htot⟩ := conduct_research_ok topic maxRounds env r h
  obtain ⟨t, ht, -, hlen, hnum, hfacts, hexit, hne0⟩ :=
    researchLoop_spec topic maxRounds env maxRounds 0 [] [] r.rounds S (by omega) hl
  simp only [List.nil_append] at ht
  subst ht
  refine ⟨?_, ?_, ?_⟩
  · intro j hj
    have hfact := (hfacts j (by omega)).2.2.2 hj
    constructor
    · exact hfact.1
    · omega
  · intro a ha hg
    have hne : r.rounds ≠ [] := hne0 (by omega) rfl
    have hlen1 : 1 ≤ r.rounds.length := List.length_pos.mpr hne
    rw [htot]
    by_contra hcon
    have hlen2 : 2 ≤ r.rounds.length := by omega
    have hf0 := hfacts 0 (by omega)
    have hga := (hf0.2.2.2 (by omega)).1
    have hana := hf0.1
    rw [ha] at hana
    injection hana with hana
    rw [← hana] at hga
    exact hga hg
  · intro hlt hne hlast
    have hres := hexit (by omega) (Or.inr hne) (fun _ => hlast)
    simpa using hres

/-- C6 witness: in the benign environment the round-1 analysis has
`gaps = []` and `max_rounds = 3`, and indeed `total_rounds = 1`. -/
theorem C6_witness : benignResult.total_rounds = 1 :=
  (C6_continue_decision "t" 3 envBenign benignResult (by omega) (by rfl)).2.1
    ⟨["f"], "sum", [], []⟩ rfl rfl

/-! ## Claim C3 -/

/-- C3 counterexample.  With a progress callback that raises at every
checkpoint, `conduct_research` does NOT run to completion: the exception
propagates out of the very first checkpoint (the callback invocations at
src/core/research_orchestrator.py lines 97-102 and 183-188 are not
guarded), aborting the research instead of isolating the failure. -/
theorem C3_counterexample :
    conduct_research "t" 1 envRaisingCb = .error () :=
  rfl

/-- C3 (amended): a raising injected callback ABORTS the research: for
every topic, round budget and environment, if the callback is present and
raises at every checkpoint, `conduct_research` propagates the exception
and produces no `ResearchResult` (this holds even for `max_rounds = 0`,
via the unguarded synthesis checkpoint of line 183). -/
theorem C3_callback_aborts (topic : String) (maxRounds : Nat)
    (env : OrchestratorEnv) (f : String × Nat × Nat → Bool)
    (hcb : env.cb = some f) (hf : ∀ e, f e = true) :
    conduct_research topic maxRounds env = .error () := by
  have hcp : ∀ e, checkpoint env.cb e = .error () := by
    intro e
    rw [hcb]
    simp [checkpoint, hf e]
  cases maxRounds with
  | zero => simp [conduct_research, researchLoop, hcp]
  | succ n => simp [conduct_research, researchLoop, hcp]

/-- C3 witness: the always-raising callback environment aborts a 1-round
research call. -/
theorem C3_witness :
    conduct_research "研究主题" 2 envRaisingCb = .error () :=
  C3_callback_aborts "研究主题" 2 envRaisingCb (fun _ => true) rfl (fun _ => rfl)

/-! ## Claim C10 -/

/-- The round loop observes the query generator only through
`_generate_queries` (`orchGenerateQueries`): behaviours with equal
`_generate_queries` output drive identical loops. -/
theorem researchLoop_gen_congr (topic : String) (maxRounds : Nat)
    (env : OrchestratorEnv) (g' : Nat → Except Unit (List String))
    (hg : ∀ i, orchGenerateQueries (g' i) = orchGenerateQueries (env.genQueries i)) :
    ∀ (fuel roundNum : Nat) (rounds : List ResearchRound) (srcs : List String),
      researchLoop topic maxRounds { env with genQueries := g' } fuel roundNum
          rounds srcs =
        researchLoop topic maxRounds env fuel roundNum rounds srcs := by
  intro fuel
  induction fuel with
  | zero => intro roundNum rounds srcs; rfl
  | succ f ih =>
      intro roundNum rounds srcs
      simp only [researchLoop]
      rw [hg roundNum]
      simp only [ih]

/-- C10 (confirmed): a raised exception inside follow-up-query generation
for round `k + 1` (round index `k ≥ 1`) is caught by `_generate_queries`
and treated exactly as an empty query list: `conduct_research` behaves
identically to a run whose generator returns `[]` at round index `k`
(so the exception never escapes); moreover any completed run has no round
numbered `k + 1` (the empty query list breaks the loop before creating
it), and its final report is still the synthesis over the completed
rounds. -/
theorem C10_gen_failure_isolated (topic : String) (maxRounds : Nat)
    (env : OrchestratorEnv) (k : Nat) (hk : 1 ≤ k)
    (hgen : env.genQueries k = .error ()) :
    conduct_research topic maxRounds
        { env with genQueries := fun i => if i = k then .ok []
            else env.genQueries i } =
      conduct_research topic maxRounds env ∧
    (∀ r, conduct_research topic maxRounds env = .ok r →
      (∀ rd ∈ r.rounds, rd.round_number ≠ k + 1) ∧
      r.final_report = synthesize_research topic r.rounds env.synthesisRes) := by
  constructor
  · have hg : ∀ i,
        orchGenerateQueries ((fun i => if i = k then .ok []
          else env.genQueries i) i) = orchGenerateQueries (env.genQueries i) := by
      intro i
      by_cases hik : i = k
      · subst hik
        rw [hgen]
        simp [orchGenerateQueries]
      · simp [hik]
    unfold conduct_research
    rw [researchLoop_gen_congr topic maxRounds env _ hg maxRounds 0 [] []]
  · intro r hr
    obtain ⟨S, hl, -, hrep, -⟩ := conduct_research_ok topic maxRounds env r hr
    obtain ⟨t, ht, -, -, hnum, hfacts, -, -⟩ :=
      researchLoop_spec topic maxRounds env maxRounds 0 [] [] r.rounds S
        (by omega) hl
    simp only [List.nil_append] at ht
    subst ht
    refine ⟨?_, hrep⟩
    intro rd hmem hnumeq
    obtain ⟨⟨j, hj⟩, hget⟩ := List.mem_iff_get.mp hmem
    have h0 : (r.rounds.map (fun rd => rd.round_number))[j]? =
        (List.range' (0 + 1) r.rounds.length)[j]? := by rw [hnum]
    have hl1 : (r.rounds.map (fun rd => rd.round_number))[j]? =
        some rd.round_number := by
      rw [List.getElem?_map, List.getElem?_eq_getElem hj]
      simp [← hget]
    have hl2 : (List.range' (0 + 1) r.rounds.length)[j]? = some (1 + j) := by
      rw [List.getElem?_eq_getElem (by simpa using hj)]
      simp [List.getElem_range']
    rw [hl1, hl2] at h0
    injection h0 with h0
    have hjk : j = k := by omega
    have hf := hfacts j hj
    have hq := hf.2.2.1 (by omega)
    have hgj : env.genQueries j = .error () := by rw [hjk]; exact hgen
    rw [Nat.zero_add, hgj] at hq
    simp [orchGenerateQueries] at hq
    exact hf.2.1 hq

/-- C10 witness: with round-1 gaps reported and a generator that raises
for round 2 (round index 1), the run equals the run whose generator
returns `[]` there. -/
theorem C10_witness :
    conduct_research "t" 3
        { envGenRaises with genQueries := fun i => if i = 1 then .ok []
            else envGenRaises.genQueries i } =
      conduct_research "t" 3 envGenRaises :=
  (C10_gen_failure_isolated "t" 3 envGenRaises 1 (by omega) rfl).1
